import Mathlib

/-!
Password policy validator: verification development.

Shallow embedding of `src/password.go` (the five checks, the two policy
evaluators) together with the parts of the Go runtime the checks rely on:

* Go strings are byte sequences; `len` counts bytes;
* `for _, c := range s` and the `regexp` package both walk a string rune by
  rune, decoding UTF-8 and yielding `utf8.RuneError` (width 1) on a malformed
  byte;
* `string(c)` encodes a rune back to UTF-8; `strings.Contains` is a substring
  test;
* `regexp.MatchString` is an unanchored search for the compiled pattern.;
* `bufio.Scanner` with `bufio.ScanLines` yields the lines of the input file one by
  one and stops at a line that does not fit its 64 KiB buffer.
-/

namespace PasswordTest

/-! ## Go strings, runes, UTF-8 -/

/-- A Go `byte`. -/
abbrev Byte := Fin 256

/-- A Go `string`: an immutable sequence of bytes, not necessarily valid UTF-8. -/
abbrev GoString := List Byte

/-- A Go `rune`, restricted to the non-negative values decoding can produce. -/
abbrev Rune := Nat

/-- Value of `utf8.RuneError` (U+FFFD). -/
def RuneError : Rune := 0xFFFD

/-- Value of `utf8.MaxRune` (U+10FFFF). -/
def MaxRune : Rune := 0x10FFFF

/-- An ASCII-only Go string literal. -/
def lit (s : String) : GoString := s.data.map (fun c => Fin.ofNat c.toNat)

/-- Go `len(s)`: the number of bytes. -/
def len (s : GoString) : Nat := s.length

/-- Go `utf8.DecodeRuneInString`: the first rune of `s` and its width in bytes.
Masks `&0x1F`, `&0x0F`, `&0x07`, `&0x3F` are written `% 32`, `% 16`, `% 8`,
`% 64`; shifts are multiplications. -/
def decodeRune (s : GoString) : Rune × Nat :=
  match s with
  | [] => (RuneError, 0)
  | s0 :: t =>
    if s0.val < 0x80 then (s0.val, 1)
    else if s0.val < 0xC2 then (RuneError, 1)
    else if s0.val < 0xE0 then
      match t with
      | s1 :: _ =>
        if 0x80 ≤ s1.val ∧ s1.val ≤ 0xBF then
          ((s0.val % 32) * 64 + s1.val % 64, 2)
        else (RuneError, 1)
      | [] => (RuneError, 1)
    else if s0.val < 0xF0 then
      match t with
      | s1 :: s2 :: _ =>
        if (if s0.val = 0xE0 then 0xA0 else 0x80) ≤ s1.val
            ∧ s1.val ≤ (if s0.val = 0xED then 0x9F else 0xBF) then
          if 0x80 ≤ s2.val ∧ s2.val ≤ 0xBF then
            ((s0.val % 16) * 4096 + (s1.val % 64) * 64 + s2.val % 64, 3)
          else (RuneError, 1)
        else (RuneError, 1)
      | _ => (RuneError, 1)
    else if s0.val < 0xF5 then
      match t with
      | s1 :: s2 :: s3 :: _ =>
        if (if s0.val = 0xF0 then 0x90 else 0x80) ≤ s1.val
            ∧ s1.val ≤ (if s0.val = 0xF4 then 0x8F else 0xBF) then
          if 0x80 ≤ s2.val ∧ s2.val ≤ 0xBF then
            if 0x80 ≤ s3.val ∧ s3.val ≤ 0xBF then
              ((s0.val % 8) * 262144 + (s1.val % 64) * 4096
                + (s2.val % 64) * 64 + s3.val % 64, 4)
            else (RuneError, 1)
          else (RuneError, 1)
        else (RuneError, 1)
      | _ => (RuneError, 1)
    else (RuneError, 1)

/-- Rune-by-rune walk over a string: `skip` bytes still belong to the rune
decoded last and are passed over; then the next rune is decoded. -/
def decodeFrom : Nat → GoString → List Rune
  | _, [] => []
  | skip + 1, _ :: t => decodeFrom skip t
  | 0, b :: t => (decodeRune (b :: t)).1 :: decodeFrom ((decodeRune (b :: t)).2 - 1) t

/-- The runes a `range` loop (or the regexp engine) sees in `s`. -/
def runes (s : GoString) : List Rune := decodeFrom 0 s

/-- Go `string(r)` for a rune `r`: its UTF-8 encoding, that of U+FFFD for a
value that is not a valid code point. -/
def runeToString (r : Rune) : GoString :=
  if r < 0x80 then [Fin.ofNat r]
  else if r < 0x800 then [Fin.ofNat (0xC0 + r / 64), Fin.ofNat (0x80 + r % 64)]
  else if MaxRune < r ∨ (0xD800 ≤ r ∧ r ≤ 0xDFFF) then [0xEF, 0xBF, 0xBD]
  else if r < 0x10000 then
    [Fin.ofNat (0xE0 + r / 4096), Fin.ofNat (0x80 + (r / 64) % 64), Fin.ofNat (0x80 + r % 64)]
  else
    [Fin.ofNat (0xF0 + r / 262144), Fin.ofNat (0x80 + (r / 4096) % 64),
      Fin.ofNat (0x80 + (r / 64) % 64), Fin.ofNat (0x80 + r % 64)]

/-- Go `strings.HasPrefix(s, p)`. -/
def startsWith : GoString → GoString → Bool
  | _, [] => true
  | [], _ :: _ => false
  | a :: s, b :: p => a == b && startsWith s p

/-- Go `strings.Contains(s, substr)`: `substr` occurs somewhere within `s`. -/
def stringsContains : GoString → GoString → Bool
  | [], substr => startsWith [] substr
  | a :: s, substr => startsWith (a :: s) substr || stringsContains s substr

/-! ## Regular expressions -/

/-- The fragment of Go regexp syntax the program uses. -/
inductive Regex where
  /-- Character class, a union of inclusive ranges. -/
  | cls (ranges : List (Rune × Rune))
  /-- `^` without the multi-line flag: beginning of text. -/
  | beginText
  /-- `$` without the multi-line flag: end of text. -/
  | endText
  /-- Concatenation. -/
  | cat (a b : Regex)
  /-- Repetition `r{min,max}`; `max = none` is unbounded. -/
  | rep (r : Regex) (min : Nat) (max : Option Nat)
  /-- Capturing group. -/
  | group (r : Regex)

/-- Membership of a rune in a character class. -/
def inClass (ranges : List (Rune × Rune)) (c : Rune) : Bool :=
  ranges.any (fun lh => decide (lh.1 ≤ c) && decide (c ≤ lh.2))

/-- Continuation of a match attempt: position (in runes) and remaining input. -/
abbrev Cont := Nat → List Rune → Bool

/-- Repetition of `body`: at least `min` and at most `max` iterations, then the
continuation. Once `min` is met an iteration has to consume input. -/
def repLoop (body : Nat → List Rune → Cont → Bool) :
    Nat → Nat → Option Nat → Nat → List Rune → Cont → Bool
  | 0, _, _, _, _, _ => false
  | fuel + 1, min + 1, max, pos, rest, k =>
    (max != some 0) &&
      body pos rest (fun p r => repLoop body fuel min (max.map (· - 1)) p r k)
  | fuel + 1, 0, max, pos, rest, k =>
    k pos rest ||
      ((max != some 0) &&
        body pos rest (fun p r =>
          decide (r.length < rest.length) && repLoop body fuel 0 (max.map (· - 1)) p r k))

/-- Backtracking matcher: does `re` match at (`pos`, `rest`) so that the
continuation accepts what is left? -/
def Regex.run : Regex → Nat → List Rune → Cont → Bool
  | .cls ranges, pos, rest, k =>
    match rest with
    | [] => false
    | c :: t => inClass ranges c && k (pos + 1) t
  | .beginText, pos, rest, k => pos == 0 && k pos rest
  | .endText, pos, rest, k => rest.isEmpty && k pos rest
  | .cat a b, pos, rest, k => a.run pos rest (fun p r => b.run p r k)
  | .rep r min max, pos, rest, k => repLoop r.run (min + rest.length + 1) min max pos rest k
  | .group r, pos, rest, k => r.run pos rest k

/-- Unanchored search: try a match at every position from `pos` on. -/
def Regex.searchFrom (re : Regex) : Nat → List Rune → Bool
  | pos, [] => re.run pos [] (fun _ _ => true)
  | pos, c :: t => re.run pos (c :: t) (fun _ _ => true) || re.searchFrom (pos + 1) t

/-- Go `(*Regexp).MatchString`: does the string contain any match? -/
def Regex.MatchString (re : Regex) (s : GoString) : Bool := re.searchFrom 0 (runes s)

/-! ## The program: constants and compiled patterns (`src/password.go`) -/

/-- Source constant `PasswordMinLength`. -/
def PasswordMinLength : Nat := 1

/-- Source constant `PasswordMaxLength`. -/
def PasswordMaxLength : Nat := 20

/-- Source constant `ConsecutiveCharacterLimit` (a `uint8`). -/
def ConsecutiveCharacterLimit : Nat := 3

/-- Source constant `AllowedDuplicateList`. -/
def AllowedDuplicateList : GoString := lit "eo"

/-- The class `[a-z]`. -/
def lowerClass : List (Rune × Rune) := [('a'.toNat, 'z'.toNat)]

/-- The class `[aeiou]`. -/
def vowelClass : List (Rune × Rune) :=
  [('a'.toNat, 'a'.toNat), ('e'.toNat, 'e'.toNat), ('i'.toNat, 'i'.toNat),
    ('o'.toNat, 'o'.toNat), ('u'.toNat, 'u'.toNat)]

/-- The class `[b-df-hj-np-tv-z]`. -/
def consonantClass : List (Rune × Rune) :=
  [('b'.toNat, 'd'.toNat), ('f'.toNat, 'h'.toNat), ('j'.toNat, 'n'.toNat),
    ('p'.toNat, 't'.toNat), ('v'.toNat, 'z'.toNat)]

/-- Pattern `(^[a-z]+$)`. -/
def ApprovedCharacterSetRegexPtr : Regex :=
  .group (.cat .beginText (.cat (.rep (.cls lowerClass) 1 none) .endText))

/-- Pattern `[aeiou]{1,}`. -/
def VowelsRegexPtr : Regex := .rep (.cls vowelClass) 1 none

/-- Pattern `[aeiou]{%d}` formatted with `ConsecutiveCharacterLimit`. -/
def ConsecutiveVowelCharactersRegexPtr : Regex :=
  .rep (.cls vowelClass) ConsecutiveCharacterLimit (some ConsecutiveCharacterLimit)

/-- Pattern `[b-df-hj-np-tv-z]{%d}` formatted with `ConsecutiveCharacterLimit`. -/
def ConsecutiveConsonantCharactersRegexPtr : Regex :=
  .rep (.cls consonantClass) ConsecutiveCharacterLimit (some ConsecutiveCharacterLimit)

/-! ## The five checks -/

/-- Source function `passwordLengthTest`. -/
def passwordLengthTest (password : GoString) : Bool :=
  let pwLen := len password
  decide (pwLen ≥ PasswordMinLength) && decide (pwLen ≤ PasswordMaxLength)

/-- Source function `passwordApprovedCharactersTest`. -/
def passwordApprovedCharactersTest (password : GoString) : Bool :=
  ApprovedCharacterSetRegexPtr.MatchString password

/-- Body of the `range` loop of `passwordDuplicateLettersTest`, run over the
runes still to come with the current value of `prevChar`. -/
def duplicateLoop : List Rune → GoString → Bool
  | [], _ => false
  | c :: rest, prevChar =>
    let curChar := runeToString c
    if prevChar == curChar then
      if stringsContains AllowedDuplicateList curChar == false then true
      else duplicateLoop rest curChar
    else duplicateLoop rest curChar

/-- Source function `passwordDuplicateLettersTest`. -/
def passwordDuplicateLettersTest (password : GoString) : Bool :=
  duplicateLoop (runes password) (lit "")

/-- Source function `passwordContainsVowelTest`. -/
def passwordContainsVowelTest (password : GoString) : Bool :=
  VowelsRegexPtr.MatchString password

/-- Source function `passwordContainsConsecutiveCharacterTest`; `count` is a
`uint8` in the source. -/
def passwordContainsConsecutiveCharacterTest (password : GoString) (_count : Nat) : Bool :=
  ConsecutiveVowelCharactersRegexPtr.MatchString password ||
    ConsecutiveConsonantCharactersRegexPtr.MatchString password

/-! ## The two policy evaluators -/

/-- Source function `validatePasswordBrief`. -/
def validatePasswordBrief (password : GoString) : Bool :=
  if passwordLengthTest password == true then
    if passwordApprovedCharactersTest password == true then
      if passwordContainsVowelTest password == true then
        if passwordDuplicateLettersTest password == false then
          if passwordContainsConsecutiveCharacterTest password ConsecutiveCharacterLimit
              == false then
            true
          else false
        else false
      else false
    else false
  else false

/-- Go `%v` of a `bool`. -/
def fmtBool (b : Bool) : GoString := if b then lit "true" else lit "false"

/-- Source function `validatePasswordFull`: the text written to `outfp` and the
returned verdict. A failed write only prints a message and leaves the verdict
as it is. -/
def validatePasswordFull (password : GoString) : GoString × Bool :=
  let pwlt := passwordLengthTest password
  let pwact := passwordApprovedCharactersTest password
  let pwcvt := passwordContainsVowelTest password
  let pwdlt := passwordDuplicateLettersTest password
  let pwccct := passwordContainsConsecutiveCharacterTest password ConsecutiveCharacterLimit
  let pwAcceptable := pwlt && pwact && pwcvt && !pwdlt && !pwccct
  let rStr := lit "Password (" ++ password ++ lit ") pwlt (" ++ fmtBool pwlt
    ++ lit ") pwact (" ++ fmtBool pwact ++ lit ") pwcvt (" ++ fmtBool pwcvt
    ++ lit ") pwdlt (" ++ fmtBool pwdlt ++ lit ") pwcct (" ++ fmtBool pwccct
    ++ lit ")\n\n\n"
  (rStr, pwAcceptable)

/-! ## Reporting and the main loop (`src/password.go`) -/

/-- Source constant `ValidResultString`. -/
def ValidResultString : GoString := lit "<%s> is acceptable.\r\n"

/-- Source constant `InvalidResultString`. -/
def InvalidResultString : GoString := lit "<%s> is not acceptable.\r\n"

/-- Source constant `EndOfInputDelimiter`. -/
def EndOfInputDelimiter : GoString := lit "end"

/-- Go `fmt.Sprintf(format, arg)` with one string operand, for a format whose
only verb is a single `%s`: the operand's bytes replace the verb, every other
byte of the format is copied. -/
def sprintfS : GoString → GoString → GoString
  | [], _ => []
  | [a], _ => [a]
  | a :: b :: rest, arg =>
    if a = 37 ∧ b = 115 then arg ++ rest
    else a :: sprintfS (b :: rest) arg

/-- Source function `printResult`: the text handed to `outfp.WriteString`. A
failed write only prints a message. -/
def printResult (password : GoString) (result : Bool) : GoString :=
  if result == true then sprintfS ValidResultString password
  else sprintfS InvalidResultString password

/-- Go constant `bufio.MaxScanTokenSize`: the buffer limit of a scanner that was
given no buffer of its own, as the one of `main`. -/
def MaxScanTokenSize : Nat := 64 * 1024

/-- The bytes of `data` before its first line feed, and the bytes after that
line feed when there is one. -/
def cutLine (data : GoString) : GoString × Option GoString :=
  (data.takeWhile (fun b => b != 10), (data.dropWhile (fun b => b != 10)).tail?)

/-- Go `dropCR` of `bufio.ScanLines`: one trailing carriage return is dropped. -/
def dropCR (data : GoString) : GoString :=
  if data.getLast? = some 13 then data.dropLast else data

/-- One `fscanner.Scan()` followed by `fscanner.Text()`, with the split function
`bufio.ScanLines`, on the bytes of the input file not consumed so far: the next
line (the bytes up to the first line feed, or up to the end of the file when no
line feed is left, without a trailing carriage return) and the bytes left after
it. The result `none` is `Scan` returning false: at end of file, or when the
scanner has filled its buffer of `MaxScanTokenSize` bytes from the start of the
line on without meeting a line feed (the error `ErrTooLong`, which `main` never
reads), that is when the line has `MaxScanTokenSize` bytes or more. Read errors
of the file are left out. -/
def scan (unread : GoString) : Option (GoString × GoString) :=
  if unread.isEmpty then none
  else if (cutLine unread).1.length < MaxScanTokenSize then
    some (dropCR (cutLine unread).1, (cutLine unread).2.getD [])
  else none

/-- The loop `for fscanner.Scan()` of `main`, for at most `fuel` iterations, on
the bytes of the input file not consumed so far: the texts written to the
output file, in order, and the final value of `endOfInputFound`. -/
def mainLoop : Nat → GoString → List GoString × Bool
  | 0, _ => ([], false)
  | fuel + 1, unread =>
    match scan unread with
    | none => ([], false)
    | some (passwd, rest) =>
      if passwd == EndOfInputDelimiter then ([], true)
      else
        ((printResult passwd (validatePasswordBrief passwd)) :: (mainLoop fuel rest).1,
          (mainLoop fuel rest).2)

/-- Source function `main`, once the files are open, as a function of the
contents of the input file: the texts written to the output file, in order, and
`endOfInputFound`. Every iteration consumes at least one byte, so `len inFile + 1`
iterations are enough for the loop to end by itself. -/
def main (inFile : GoString) : List GoString × Bool := mainLoop (len inFile + 1) inFile

/-! ## The test table (`src/pwtest.go`) -/

/-- Source table `passwordTestSet`, a map from candidate to expected verdict. -/
def passwordTestSet : List (GoString × Bool) :=
  [(lit "a", true), (lit "tv", false), (lit "ptoui", false), (lit "bontres", false),
    (lit "zoggax", false), (lit "wiinq", false), (lit "eep", true), (lit "houctuh", true),
    (lit "ei", true), (lit "cd", false), (lit "bcdfghjklmnpqrstvwxy", false),
    (lit "ee", true), (lit "oo", true), (lit "jj", false), (lit "aei", false),
    (lit "vwx", false), (lit "to", true), (lit "in", true), (lit "try", false),
    (lit "ask", true), (lit "bot", true), (lit "abcodefgohijkolmonop", true),
    (lit "jkloxoxoxoxoxoxoxoxo", false), (lit "mamamamajklamamamama", false),
    (lit "egegegegegegegegejkl", false), (lit "aeiququququququququq", false),
    (lit "orororaeirororororor", false), (lit "zezezezezezezezezoua", false),
    (lit "eeprop", true), (lit "peerop", true), (lit "propee", true),
    (lit "ooplant", true), (lit "poolant", true), (lit "plantoo", true),
    (lit "ssuper", false), (lit "supper", false), (lit "superr", false),
    (lit "aarmada", false), (lit "armaada", false), (lit "armadaa", false),
    (lit "banana", true), (lit "rhythm", false), (lit "breakneck", true)]

/-! ## The length check counted in characters -/

/-- The length check as the specification words it: the number of characters
(runes) is within the bounds. -/
def passwordLengthTestChars (password : GoString) : Bool :=
  let pwLen := (runes password).length
  decide (pwLen ≥ PasswordMinLength) && decide (pwLen ≤ PasswordMaxLength)

/-- The policy of `validatePasswordBrief` with its length check replaced by
`passwordLengthTestChars`. -/
def validatePasswordBriefChars (password : GoString) : Bool :=
  if passwordLengthTestChars password == true then
    if passwordApprovedCharactersTest password == true then
      if passwordContainsVowelTest password == true then
        if passwordDuplicateLettersTest password == false then
          if passwordContainsConsecutiveCharacterTest password ConsecutiveCharacterLimit
              == false then
            true
          else false
        else false
      else false
    else false
  else false

/-! ## Vocabulary of the specification -/

/-- One of the 26 lowercase Latin letters `a`..`z`. -/
def IsLower (c : Rune) : Prop := 'a'.toNat ≤ c ∧ c ≤ 'z'.toNat

/-- One of the vowels `a`, `e`, `i`, `o`, `u`. -/
def IsVowel (c : Rune) : Prop :=
  c = 'a'.toNat ∨ c = 'e'.toNat ∨ c = 'i'.toNat ∨ c = 'o'.toNat ∨ c = 'u'.toNat

/-- A consonant: a lowercase letter that is not a vowel. -/
def IsConsonant (c : Rune) : Prop := IsLower c ∧ ¬ IsVowel c

/-- The list `l` contains a run of `n` or more consecutive elements that all
satisfy `P`. -/
def HasRun (P : Rune → Prop) (n : Nat) (l : List Rune) : Prop :=
  ∃ pre mid post, l = pre ++ mid ++ post ∧ n ≤ mid.length ∧ ∀ c ∈ mid, P c

/-- Some two adjacent runes of `l` are identical and are neither `e` nor `o`. -/
def HasDisallowedRepeat (l : List Rune) : Prop :=
  ∃ i c, l[i]? = some c ∧ l[i + 1]? = some c ∧ c ≠ 'e'.toNat ∧ c ≠ 'o'.toNat

/-- A valid code point: at most U+10FFFF and not a surrogate. -/
def ValidRune (r : Rune) : Prop := r ≤ 0x10FFFF ∧ ¬ (0xD800 ≤ r ∧ r ≤ 0xDFFF)

/-- The candidate `ééééééééééé`: eleven characters, twenty-two bytes. -/
def elevenEAcute : GoString :=
  [0xC3, 0xA9, 0xC3, 0xA9, 0xC3, 0xA9, 0xC3, 0xA9, 0xC3, 0xA9, 0xC3, 0xA9,
    0xC3, 0xA9, 0xC3, 0xA9, 0xC3, 0xA9, 0xC3, 0xA9, 0xC3, 0xA9]

instance (c : Rune) : Decidable (IsLower c) := by unfold IsLower; infer_instance

instance (c : Rune) : Decidable (IsVowel c) := by unfold IsVowel; infer_instance

instance (c : Rune) : Decidable (IsConsonant c) := by unfold IsConsonant; infer_instance

/-! ## The regular-expression matcher on one-rune repetitions -/

theorem repLoop_succ_succ (body : Nat → List Rune → Cont → Bool) (fuel mn : Nat)
    (mx : Option Nat) (pos : Nat) (rest : List Rune) (k : Cont) :
    repLoop body (fuel + 1) (mn + 1) mx pos rest k =
      ((mx != some 0) &&
        body pos rest (fun p r => repLoop body fuel mn (mx.map (· - 1)) p r k)) := rfl

theorem repLoop_succ_zero (body : Nat → List Rune → Cont → Bool) (fuel : Nat)
    (mx : Option Nat) (pos : Nat) (rest : List Rune) (k : Cont) :
    repLoop body (fuel + 1) 0 mx pos rest k =
      (k pos rest ||
        ((mx != some 0) &&
          body pos rest (fun p r =>
            decide (r.length < rest.length) &&
              repLoop body fuel 0 (mx.map (· - 1)) p r k))) := rfl

theorem max_step (mx : Option Nat) (n : Nat) :
    ((mx != some 0) = true ∧ ∀ m, mx.map (· - 1) = some m → n ≤ m) ↔
      ∀ m, mx = some m → n + 1 ≤ m := by
  cases mx with
  | none => simp
  | some m0 =>
    simp only [bne_iff_ne, ne_eq, Option.some.injEq, Option.map_some', forall_eq']
    omega

/-- Repetition of a one-rune test `P`: the loop succeeds exactly when some
number `n` of leading runes within the bounds all pass `P` and the continuation
accepts the rest. -/
theorem repLoop_single (body : Nat → List Rune → Cont → Bool) (P : Rune → Bool)
    (hnil : ∀ pos k, body pos [] k = false)
    (hcons : ∀ pos c t k, body pos (c :: t) k = (P c && k (pos + 1) t)) :
    ∀ (fuel mn : Nat) (mx : Option Nat) (pos : Nat) (rest : List Rune) (k : Cont),
      mn + rest.length < fuel →
      (repLoop body fuel mn mx pos rest k = true ↔
        ∃ n, mn ≤ n ∧ (∀ m, mx = some m → n ≤ m) ∧ n ≤ rest.length ∧
          (∀ c ∈ rest.take n, P c = true) ∧
          k (pos + n) (rest.drop n) = true) := by
  intro fuel
  induction fuel with
  | zero => intro mn mx pos rest k h; omega
  | succ fuel ih =>
    intro mn mx pos rest k hfuel
    cases mn with
    | succ mn =>
      cases rest with
      | nil =>
        rw [repLoop_succ_succ, hnil]
        simp only [Bool.and_false, Bool.false_eq_true, false_iff]
        rintro ⟨n, h1, _, h3, _⟩
        simp at h3
        omega
      | cons c t =>
        have hf : mn + t.length < fuel := by simp at hfuel; omega
        rw [repLoop_succ_succ, hcons, Bool.and_eq_true, Bool.and_eq_true,
          ih mn (mx.map (· - 1)) (pos + 1) t k hf]
        constructor
        · rintro ⟨hmx, hc, n, h1, h2, h3, h4, h5⟩
          refine ⟨n + 1, by omega, (max_step mx n).1 ⟨hmx, h2⟩, by simp; omega, ?_, ?_⟩
          · intro x hx
            simp only [List.take_succ_cons, List.mem_cons] at hx
            rcases hx with rfl | hx
            · exact hc
            · exact h4 x hx
          · simpa [Nat.add_assoc, Nat.add_comm 1 n] using h5
        · rintro ⟨n, h1, h2, h3, h4, h5⟩
          obtain ⟨n, rfl⟩ : ∃ n0, n = n0 + 1 := ⟨n - 1, by omega⟩
          simp only [List.take_succ_cons, List.mem_cons, List.drop_succ_cons,
            List.length_cons] at h3 h4 h5
          have hm := (max_step mx n).2 h2
          refine ⟨hm.1, h4 c (Or.inl rfl), n, by omega, hm.2, by omega,
            fun x hx => h4 x (Or.inr hx), ?_⟩
          simpa [Nat.add_assoc, Nat.add_comm 1 n] using h5
    | zero =>
      cases rest with
      | nil =>
        rw [repLoop_succ_zero, hnil]
        simp only [Bool.and_false, Bool.or_false]
        constructor
        · intro h
          exact ⟨0, le_refl _, fun _ _ => Nat.zero_le _, by simp, by simp, by simpa using h⟩
        · rintro ⟨n, _, _, h3, _, h5⟩
          have : n = 0 := by simpa using h3
          subst this
          simpa using h5
      | cons c t =>
        have hf : 0 + t.length < fuel := by simp at hfuel; omega
        rw [repLoop_succ_zero, hcons]
        simp only [Bool.or_eq_true, Bool.and_eq_true,
          ih 0 (mx.map (· - 1)) (pos + 1) t k hf, List.length_cons, Nat.lt_succ_self,
          decide_True, true_and]
        constructor
        · rintro (h | ⟨hmx, hc, n, h1, h2, h3, h4, h5⟩)
          · exact ⟨0, le_refl _, fun _ _ => Nat.zero_le _, by simp, by simp, by simpa using h⟩
          · refine ⟨n + 1, by omega, (max_step mx n).1 ⟨hmx, h2⟩, by omega, ?_, ?_⟩
            · intro x hx
              simp only [List.take_succ_cons, List.mem_cons] at hx
              rcases hx with rfl | hx
              · exact hc
              · exact h4 x hx
            · simpa [Nat.add_assoc, Nat.add_comm 1 n] using h5
        · rintro ⟨n, h1, h2, h3, h4, h5⟩
          cases n with
          | zero => left; simpa using h5
          | succ n =>
            right
            simp only [List.take_succ_cons, List.mem_cons, List.drop_succ_cons] at h3 h4 h5
            have hm := (max_step mx n).2 h2
            refine ⟨hm.1, h4 c (Or.inl rfl), n, by omega, hm.2, by omega,
              fun x hx => h4 x (Or.inr hx), ?_⟩
            simpa [Nat.add_assoc, Nat.add_comm 1 n] using h5

theorem inClass_lower (c : Rune) : inClass lowerClass c = true ↔ IsLower c := by
  simp only [inClass, lowerClass, IsLower, List.any_cons, List.any_nil, Bool.or_false,
    Bool.and_eq_true, decide_eq_true_eq, Char.reduceToNat]

theorem inClass_vowel (c : Rune) : inClass vowelClass c = true ↔ IsVowel c := by
  simp only [inClass, vowelClass, IsVowel, List.any_cons, List.any_nil, Bool.or_false,
    Bool.or_eq_true, Bool.and_eq_true, decide_eq_true_eq, Char.reduceToNat]
  unfold Rune at *
  constructor <;> intro h <;> omega

theorem inClass_consonant (c : Rune) : inClass consonantClass c = true ↔ IsConsonant c := by
  simp only [inClass, consonantClass, IsConsonant, IsLower, IsVowel, List.any_cons,
    List.any_nil, Bool.or_false, Bool.or_eq_true, Bool.and_eq_true, decide_eq_true_eq,
    Char.reduceToNat]
  unfold Rune at *
  constructor <;> intro h <;> omega

theorem searchFrom_iff (re : Regex) :
    ∀ (l : List Rune) (pos : Nat),
      re.searchFrom pos l = true ↔
        ∃ i, i ≤ l.length ∧ re.run (pos + i) (l.drop i) (fun _ _ => true) = true := by
  intro l
  induction l with
  | nil =>
    intro pos
    simp [Regex.searchFrom]
  | cons c t ih =>
    intro pos
    simp only [Regex.searchFrom, Bool.or_eq_true, ih, List.length_cons]
    constructor
    · rintro (h | ⟨i, hi, h⟩)
      · exact ⟨0, Nat.zero_le _, by simpa using h⟩
      · exact ⟨i + 1, by omega, by simpa [Nat.add_assoc, Nat.add_comm 1 i] using h⟩
    · rintro ⟨i, hi, h⟩
      cases i with
      | zero => left; simpa using h
      | succ i =>
        right
        exact ⟨i, by omega, by simpa [Nat.add_assoc, Nat.add_comm 1 i] using h⟩

theorem rep_cls_run (ranges : List (Rune × Rune)) (mn : Nat) (mx : Option Nat) (pos : Nat)
    (rest : List Rune) (k : Cont) :
    (Regex.rep (.cls ranges) mn mx).run pos rest k = true ↔
      ∃ n, mn ≤ n ∧ (∀ m, mx = some m → n ≤ m) ∧ n ≤ rest.length ∧
        (∀ c ∈ rest.take n, inClass ranges c = true) ∧
        k (pos + n) (rest.drop n) = true := by
  show repLoop (Regex.cls ranges).run (mn + rest.length + 1) mn mx pos rest k = true ↔ _
  exact repLoop_single _ (inClass ranges) (fun _ _ => rfl) (fun _ _ _ _ => rfl)
    _ mn mx pos rest k (Nat.lt_succ_self _)

theorem run_group (r : Regex) (pos : Nat) (rest : List Rune) (k : Cont) :
    (Regex.group r).run pos rest k = r.run pos rest k := rfl

theorem run_cat (a b : Regex) (pos : Nat) (rest : List Rune) (k : Cont) :
    (Regex.cat a b).run pos rest k = a.run pos rest (fun p r => b.run p r k) := rfl

theorem run_beginText (pos : Nat) (rest : List Rune) (k : Cont) :
    Regex.beginText.run pos rest k = (pos == 0 && k pos rest) := rfl

theorem run_endText (pos : Nat) (rest : List Rune) (k : Cont) :
    Regex.endText.run pos rest k = (rest.isEmpty && k pos rest) := rfl

/-- The pattern `(^[a-z]+$)` finds a match in a rune sequence exactly when the
sequence is non-empty and consists of lowercase letters only. -/
theorem approved_search (l : List Rune) :
    ApprovedCharacterSetRegexPtr.searchFrom 0 l = true ↔ l ≠ [] ∧ ∀ c ∈ l, IsLower c := by
  rw [searchFrom_iff]
  simp only [ApprovedCharacterSetRegexPtr, run_group, run_cat, run_beginText, run_endText,
    Bool.and_eq_true, rep_cls_run, Bool.and_true, beq_iff_eq, List.isEmpty_iff, inClass_lower]
  constructor
  · rintro ⟨i, _, hpos, n, h1, _, h3, h4, h5⟩
    have hi : i = 0 := by omega
    subst hi
    simp only [List.drop_zero] at h3 h4 h5
    have hn : l.length ≤ n := by
      have := congrArg List.length h5
      simp at this
      omega
    rw [List.take_of_length_le hn] at h4
    refine ⟨?_, h4⟩
    intro hl
    subst hl
    simp at h3
    omega
  · rintro ⟨hne, hall⟩
    refine ⟨0, Nat.zero_le _, rfl, l.length, ?_, ?_, ?_, ?_, ?_⟩
    · cases l with
      | nil => exact absurd rfl hne
      | cons c t => simp
    · intro m hm; cases hm
    · simp
    · simpa using hall
    · simp

/-- The pattern `[aeiou]{1,}` finds a match exactly when some rune is a vowel. -/
theorem vowels_search (l : List Rune) :
    VowelsRegexPtr.searchFrom 0 l = true ↔ ∃ c ∈ l, IsVowel c := by
  rw [searchFrom_iff]
  simp only [VowelsRegexPtr, rep_cls_run, and_true, inClass_vowel]
  constructor
  · rintro ⟨i, _, n, h1, _, h3, h4⟩
    cases hd : l.drop i with
    | nil => rw [hd] at h3; simp at h3; omega
    | cons c t =>
      obtain ⟨n, rfl⟩ : ∃ n0, n = n0 + 1 := ⟨n - 1, by omega⟩
      rw [hd] at h4
      refine ⟨c, ?_, h4 c (by simp)⟩
      exact List.mem_of_mem_drop (by rw [hd]; simp)
  · rintro ⟨c, hc, hv⟩
    obtain ⟨pre, post, rfl⟩ := List.append_of_mem hc
    refine ⟨pre.length, by simp, 1, le_refl _, ?_, ?_, ?_⟩
    · intro m hm; cases hm
    · simp
    · simpa using hv

/-- A pattern `[class]{n}` finds a match exactly when `n` consecutive runes all
belong to the class. -/
theorem exact_search (ranges : List (Rune × Rune)) (n : Nat) (l : List Rune) :
    (Regex.rep (.cls ranges) n (some n)).searchFrom 0 l = true ↔
      ∃ pre mid post, l = pre ++ mid ++ post ∧ mid.length = n ∧
        ∀ c ∈ mid, inClass ranges c = true := by
  rw [searchFrom_iff]
  simp only [rep_cls_run, and_true]
  constructor
  · rintro ⟨i, _, m, h1, h2, h3, h4⟩
    have hm : m = n := by
      have := h2 n rfl
      omega
    subst hm
    refine ⟨l.take i, (l.drop i).take m, (l.drop i).drop m, ?_, ?_, h4⟩
    · rw [List.append_assoc, List.take_append_drop, List.take_append_drop]
    · rw [List.length_take]
      omega
  · rintro ⟨pre, mid, post, rfl, hlen, hall⟩
    refine ⟨pre.length, by simp, n, le_refl _, ?_, ?_, ?_⟩
    · intro m hm
      cases hm
      exact le_refl _
    · simp [List.append_assoc]
      omega
    · intro c hc
      apply hall
      rw [List.append_assoc, List.drop_left, ← hlen, List.take_left] at hc
      exact hc

/-! ## UTF-8 decoding and encoding -/

theorem val_ofNat (a : Nat) : (Fin.ofNat a : Byte).val = a % 256 := rfl

theorem decodeRune_ascii (b : Byte) (t : GoString) (h : b.val < 128) :
    decodeRune (b :: t) = (b.val, 1) := by
  simp [decodeRune, h]

theorem decodeRune_valid (s : GoString) : ValidRune (decodeRune s).1 := by
  unfold decodeRune ValidRune
  repeat' split
  all_goals simp only [RuneError]
  all_goals unfold Rune at *
  all_goals omega

theorem decodeRune_ge (b : Byte) (t : GoString) (h : 128 ≤ b.val) :
    128 ≤ (decodeRune (b :: t)).1 := by
  simp only [decodeRune]
  repeat' split
  all_goals simp only [RuneError]
  all_goals unfold Rune at *
  all_goals omega

theorem decodeFrom_length_le : ∀ (s : GoString) (k : Nat), (decodeFrom k s).length ≤ s.length := by
  intro s
  induction s with
  | nil => intro k; simp [decodeFrom]
  | cons b t ih =>
    intro k
    cases k with
    | zero =>
      simp only [decodeFrom, List.length_cons]
      exact Nat.succ_le_succ (ih _)
    | succ k =>
      simp only [decodeFrom, List.length_cons]
      exact Nat.le_succ_of_le (ih _)

theorem runes_length_le (s : GoString) : (runes s).length ≤ s.length :=
  decodeFrom_length_le s 0

theorem runes_eq_nil (s : GoString) : runes s = [] ↔ s = [] := by
  cases s with
  | nil => simp [runes, decodeFrom]
  | cons b t => simp [runes, decodeFrom]

theorem decodeFrom_valid : ∀ (s : GoString) (k : Nat), ∀ c ∈ decodeFrom k s, ValidRune c := by
  intro s
  induction s with
  | nil => intro k c hc; simp [decodeFrom] at hc
  | cons b t ih =>
    intro k c hc
    cases k with
    | zero =>
      simp only [decodeFrom, List.mem_cons] at hc
      rcases hc with rfl | hc
      · exact decodeRune_valid _
      · exact ih _ c hc
    | succ k =>
      simp only [decodeFrom] at hc
      exact ih _ c hc

theorem runes_valid (s : GoString) : ∀ c ∈ runes s, ValidRune c := decodeFrom_valid s 0

theorem runes_cons_ascii (b : Byte) (t : GoString) (h : b.val < 128) :
    runes (b :: t) = b.val :: runes t := by
  simp [runes, decodeFrom, decodeRune_ascii b t h]

/-- On a string of ASCII bytes the runes are the bytes. -/
theorem runes_ascii (s : GoString) (h : ∀ b ∈ s, b.val < 128) :
    runes s = s.map (fun b => b.val) := by
  induction s with
  | nil => simp [runes, decodeFrom]
  | cons b t ih =>
    rw [runes_cons_ascii b t (h b (by simp)), ih (fun x hx => h x (by simp [hx]))]
    simp

/-- A string all of whose runes are ASCII consists of ASCII bytes. -/
theorem ascii_of_runes (s : GoString) (h : ∀ c ∈ runes s, c < 128) : ∀ b ∈ s, b.val < 128 := by
  induction s with
  | nil => intro b hb; simp at hb
  | cons b t ih =>
    have hb : b.val < 128 := by
      by_contra hge
      have h1 := decodeRune_ge b t (by omega)
      have h2 := h (decodeRune (b :: t)).1 (by simp [runes, decodeFrom])
      exact absurd h2 (Nat.not_lt.mpr h1)
    rw [runes_cons_ascii b t hb] at h
    intro x hx
    simp only [List.mem_cons] at hx
    rcases hx with rfl | hx
    · exact hb
    · exact ih (fun c hc => h c (by simp [hc])) x hx

theorem runeToString_ne_nil (r : Rune) : runeToString r ≠ [] := by
  unfold runeToString
  split_ifs <;> simp

theorem runeToString_inj (a b : Rune) (ha : ValidRune a) (hb : ValidRune b)
    (h : runeToString a = runeToString b) : a = b := by
  unfold ValidRune at ha hb
  unfold runeToString MaxRune at h
  unfold Rune at *
  split_ifs at h <;>
    simp only [List.cons.injEq, Fin.ext_iff, val_ofNat, and_true, List.cons_ne_nil,
      and_false, false_and, reduceCtorEq] at h <;> omega

theorem allowedDuplicateList_eq : AllowedDuplicateList = [101, 111] := by decide

theorem contains_allowed (c : Rune) :
    stringsContains AllowedDuplicateList (runeToString c) = true ↔
      (c = 'e'.toNat ∨ c = 'o'.toNat) := by
  rw [allowedDuplicateList_eq]
  unfold runeToString MaxRune
  unfold Rune at *
  split_ifs <;>
    simp only [stringsContains, startsWith, Bool.or_eq_true, Bool.and_eq_true, beq_iff_eq,
      Fin.ext_iff, val_ofNat, Bool.and_true, Bool.or_false, Bool.false_eq_true, or_false,
      Bool.and_false, and_false, Char.reduceToNat, Fin.isValue] <;>
    constructor <;> intro h <;> first | omega | exact h.elim

/-! ## The duplicate-letter scan -/

theorem hasDisallowedRepeat_cons (p c : Rune) (rest : List Rune) :
    HasDisallowedRepeat (p :: c :: rest) ↔
      (p = c ∧ c ≠ 'e'.toNat ∧ c ≠ 'o'.toNat) ∨ HasDisallowedRepeat (c :: rest) := by
  constructor
  · rintro ⟨i, x, h1, h2, h3⟩
    cases i with
    | zero =>
      simp only [List.getElem?_cons_zero, Option.some.injEq, zero_add,
        List.getElem?_cons_succ] at h1 h2
      left
      subst h1
      subst h2
      exact ⟨rfl, h3⟩
    | succ i =>
      right
      simp only [List.getElem?_cons_succ] at h1 h2
      exact ⟨i, x, h1, by simpa using h2, h3⟩
  · rintro (⟨rfl, h⟩ | ⟨i, x, h1, h2, h3⟩)
    · exact ⟨0, p, by simp, by simp, h⟩
    · exact ⟨i + 1, x, by simpa using h1, by simpa using h2, h3⟩

theorem duplicateLoop_cons (c : Rune) (rest : List Rune) (prevChar : GoString) :
    duplicateLoop (c :: rest) prevChar =
      if prevChar == runeToString c then
        if stringsContains AllowedDuplicateList (runeToString c) == false then true
        else duplicateLoop rest (runeToString c)
      else duplicateLoop rest (runeToString c) := rfl

/-- The loop started with `prevChar = string(p)` reports a repeat exactly when
`p` followed by the remaining runes has a disallowed repeat. -/
theorem duplicateLoop_iff :
    ∀ (l : List Rune) (p : Rune), ValidRune p → (∀ c ∈ l, ValidRune c) →
      (duplicateLoop l (runeToString p) = true ↔ HasDisallowedRepeat (p :: l)) := by
  intro l
  induction l with
  | nil =>
    intro p _ _
    simp only [duplicateLoop, Bool.false_eq_true, false_iff]
    rintro ⟨i, x, _, h2, _⟩
    simp at h2
  | cons c rest ih =>
    intro p hp hl
    have hc : ValidRune c := hl c (by simp)
    have hrest : ∀ x ∈ rest, ValidRune x := fun x hx => hl x (by simp [hx])
    rw [duplicateLoop_cons, hasDisallowedRepeat_cons, ← ih c hc hrest]
    by_cases hpc : p = c
    · subst hpc
      simp only [beq_self_eq_true, if_true, true_and]
      by_cases hex : p = 'e'.toNat ∨ p = 'o'.toNat
      · have hcont := (contains_allowed p).2 hex
        simp only [hcont, Bool.true_eq_false, if_false, beq_iff_eq]
        constructor
        · intro h; exact Or.inr h
        · rintro (⟨h1, h2⟩ | h)
          · rcases hex with h | h
            · exact absurd h h1
            · exact absurd h h2
          · exact h
      · have hcont : stringsContains AllowedDuplicateList (runeToString p) = false := by
          cases hb : stringsContains AllowedDuplicateList (runeToString p) with
          | false => rfl
          | true => exact absurd ((contains_allowed p).1 hb) hex
        simp only [hcont, beq_self_eq_true, if_true, true_iff]
        left
        exact ⟨fun h => hex (Or.inl h), fun h => hex (Or.inr h)⟩
    · have hne : (runeToString p == runeToString c) = false := by
        cases hb : runeToString p == runeToString c with
        | false => rfl
        | true => exact absurd (runeToString_inj p c hp hc (by simpa using hb)) hpc
      simp only [hne, Bool.false_eq_true, if_false]
      constructor
      · intro h; exact Or.inr h
      · rintro (⟨h, _⟩ | h)
        · exact absurd h hpc
        · exact h

/-- The duplicate-letter scan over a whole rune sequence. -/
theorem duplicateLoop_start (l : List Rune) (hl : ∀ c ∈ l, ValidRune c) :
    duplicateLoop l (lit "") = true ↔ HasDisallowedRepeat l := by
  cases l with
  | nil =>
    simp only [duplicateLoop, Bool.false_eq_true, false_iff]
    rintro ⟨i, x, h1, _⟩
    simp at h1
  | cons c rest =>
    have hne : ((lit "") == runeToString c) = false := by
      cases hb : (lit "") == runeToString c with
      | false => rfl
      | true =>
        have h : lit "" = runeToString c := by simpa using hb
        exact absurd h.symm (runeToString_ne_nil c)
    rw [duplicateLoop_cons]
    simp only [hne, Bool.false_eq_true, if_false]
    exact duplicateLoop_iff rest c (hl c (by simp)) (fun x hx => hl x (by simp [hx]))

/-! ## The five checks, characterised -/

theorem lower_lt (c : Rune) (h : IsLower c) : c < 128 := by
  simp only [IsLower, Char.reduceToNat] at h
  unfold Rune at *
  omega

/-- All runes of a string are lowercase letters exactly when all its bytes are. -/
theorem lower_runes_iff_bytes (s : GoString) :
    (∀ c ∈ runes s, IsLower c) ↔ ∀ b ∈ s, IsLower b.val := by
  constructor
  · intro h
    have hascii := ascii_of_runes s (fun c hc => lower_lt c (h c hc))
    rw [runes_ascii s hascii] at h
    intro b hb
    exact h b.val (List.mem_map.2 ⟨b, hb, rfl⟩)
  · intro h
    rw [runes_ascii s (fun b hb => lower_lt _ (h b hb))]
    intro c hc
    obtain ⟨b, hb, rfl⟩ := List.mem_map.1 hc
    exact h b hb

theorem approved_iff (s : GoString) :
    passwordApprovedCharactersTest s = true ↔ s ≠ [] ∧ ∀ c ∈ runes s, IsLower c := by
  unfold passwordApprovedCharactersTest Regex.MatchString
  rw [approved_search, Ne, runes_eq_nil]

theorem vowel_iff (s : GoString) :
    passwordContainsVowelTest s = true ↔ ∃ c ∈ runes s, IsVowel c := by
  unfold passwordContainsVowelTest Regex.MatchString
  exact vowels_search _

theorem three_of_length (mid : List Rune) (h : mid.length = 3) :
    ∃ a b c, mid = [a, b, c] := by
  match mid, h with
  | [a, b, c], _ => exact ⟨a, b, c, rfl⟩

theorem consecutive_iff (s : GoString) (count : Nat) :
    passwordContainsConsecutiveCharacterTest s count = true ↔
      (∃ pre a b c post, runes s = pre ++ a :: b :: c :: post ∧
        IsVowel a ∧ IsVowel b ∧ IsVowel c) ∨
      (∃ pre a b c post, runes s = pre ++ a :: b :: c :: post ∧
        IsConsonant a ∧ IsConsonant b ∧ IsConsonant c) := by
  unfold passwordContainsConsecutiveCharacterTest Regex.MatchString
    ConsecutiveVowelCharactersRegexPtr ConsecutiveConsonantCharactersRegexPtr
  rw [Bool.or_eq_true, exact_search, exact_search]
  simp only [inClass_vowel, inClass_consonant, ConsecutiveCharacterLimit]
  constructor
  · rintro (⟨pre, mid, post, h, hlen, hall⟩ | ⟨pre, mid, post, h, hlen, hall⟩)
    · obtain ⟨a, b, c, rfl⟩ := three_of_length mid hlen
      exact Or.inl ⟨pre, a, b, c, post, by simpa using h, hall a (by simp), hall b (by simp),
        hall c (by simp)⟩
    · obtain ⟨a, b, c, rfl⟩ := three_of_length mid hlen
      exact Or.inr ⟨pre, a, b, c, post, by simpa using h, hall a (by simp), hall b (by simp),
        hall c (by simp)⟩
  · rintro (⟨pre, a, b, c, post, h, ha, hb, hc⟩ | ⟨pre, a, b, c, post, h, ha, hb, hc⟩)
    · refine Or.inl ⟨pre, [a, b, c], post, by simpa using h, rfl, ?_⟩
      intro x hx
      simp only [List.mem_cons, List.mem_singleton, List.not_mem_nil, or_false] at hx
      rcases hx with rfl | rfl | rfl <;> assumption
    · refine Or.inr ⟨pre, [a, b, c], post, by simpa using h, rfl, ?_⟩
      intro x hx
      simp only [List.mem_cons, List.mem_singleton, List.not_mem_nil, or_false] at hx
      rcases hx with rfl | rfl | rfl <;> assumption

theorem duplicate_iff (s : GoString) :
    passwordDuplicateLettersTest s = true ↔ HasDisallowedRepeat (runes s) :=
  duplicateLoop_start (runes s) (runes_valid s)

theorem length_iff (s : GoString) :
    passwordLengthTest s = true ↔ 1 ≤ len s ∧ len s ≤ 20 := by
  simp [passwordLengthTest, PasswordMinLength, PasswordMaxLength]

theorem brief_eq (s : GoString) :
    validatePasswordBrief s =
      (passwordLengthTest s && passwordApprovedCharactersTest s && passwordContainsVowelTest s
        && !passwordDuplicateLettersTest s
        && !passwordContainsConsecutiveCharacterTest s ConsecutiveCharacterLimit) := by
  unfold validatePasswordBrief
  cases passwordLengthTest s <;> cases passwordApprovedCharactersTest s <;>
    cases passwordContainsVowelTest s <;> cases passwordDuplicateLettersTest s <;>
    cases passwordContainsConsecutiveCharacterTest s ConsecutiveCharacterLimit <;> rfl

/-! ## The claims -/

/-- C1: for every input string the fast-fail evaluator `validatePasswordBrief`
and the full-diagnostic evaluator `validatePasswordFull` return the same
verdict. -/
theorem C1_modes_agree (s : GoString) :
    validatePasswordBrief s = (validatePasswordFull s).2 := by
  rw [brief_eq]
  rfl

/-- C2: `validatePasswordBrief` accepts exactly when the length check, the
approved-characters check and the vowel check pass and neither the
duplicate-letter check nor the consecutive-character check (limit 3) fires. -/
theorem C2_brief_iff_all_five (s : GoString) :
    validatePasswordBrief s = true ↔
      (passwordLengthTest s = true ∧ passwordApprovedCharactersTest s = true ∧
        passwordContainsVowelTest s = true ∧ passwordDuplicateLettersTest s = false ∧
        passwordContainsConsecutiveCharacterTest s 3 = false) := by
  rw [brief_eq]
  show (_ && _ && _ && !_ && !passwordContainsConsecutiveCharacterTest s 3) = true ↔ _
  cases passwordLengthTest s <;> cases passwordApprovedCharactersTest s <;>
    cases passwordContainsVowelTest s <;> cases passwordDuplicateLettersTest s <;>
    cases passwordContainsConsecutiveCharacterTest s 3 <;> simp

/-- C3: `passwordApprovedCharactersTest` accepts exactly the non-empty strings
all of whose characters are lowercase letters `a`..`z` (said of the runes and,
equivalently, of the bytes); the empty string is rejected, and so is any string
with a character outside `a`..`z`. -/
theorem C3_approved_iff_lowercase (s : GoString) :
    (passwordApprovedCharactersTest s = true ↔ s ≠ [] ∧ ∀ c ∈ runes s, IsLower c) ∧
    (passwordApprovedCharactersTest s = true ↔ s ≠ [] ∧ ∀ b ∈ s, IsLower b.val) ∧
    passwordApprovedCharactersTest (lit "") = false ∧
    ((∃ c ∈ runes s, ¬ IsLower c) → passwordApprovedCharactersTest s = false) := by
  refine ⟨approved_iff s, ?_, by decide, ?_⟩
  · rw [approved_iff, lower_runes_iff_bytes]
  · rintro ⟨c, hc, hnot⟩
    cases hb : passwordApprovedCharactersTest s with
    | false => rfl
    | true => exact absurd (((approved_iff s).1 hb).2 c hc) hnot

/-- C3, at the candidates `abc` followed by a line break, `Abc`, `ab1` and
`a b`: each is rejected. -/
theorem C3_witness :
    passwordApprovedCharactersTest (lit "abc\n") = false ∧
    passwordApprovedCharactersTest (lit "Abc") = false ∧
    passwordApprovedCharactersTest (lit "ab1") = false ∧
    passwordApprovedCharactersTest (lit "a b") = false :=
  ⟨(C3_approved_iff_lowercase (lit "abc\n")).2.2.2 ⟨10, by decide, by decide⟩,
    (C3_approved_iff_lowercase (lit "Abc")).2.2.2 ⟨65, by decide, by decide⟩,
    (C3_approved_iff_lowercase (lit "ab1")).2.2.2 ⟨49, by decide, by decide⟩,
    (C3_approved_iff_lowercase (lit "a b")).2.2.2 ⟨32, by decide, by decide⟩⟩

/-- C4 as stated fails: the eleven-character candidate `ééééééééééé` has 22
bytes, so `passwordLengthTest` rejects it although its number of characters is
between 1 and 20. -/
theorem C4_counterexample :
    ¬ (passwordLengthTest elevenEAcute = true ↔
        1 ≤ (runes elevenEAcute).length ∧ (runes elevenEAcute).length ≤ 20) := by
  decide

/-- C4, amended: `passwordLengthTest` is true exactly when the number of bytes
of the string is at least 1 and at most 20; for a string of ASCII characters the
number of bytes is the number of characters. -/
theorem C4_length_iff_bytes (s : GoString) :
    (passwordLengthTest s = true ↔ 1 ≤ len s ∧ len s ≤ 20) ∧
    ((∀ c ∈ runes s, c < 128) →
      (passwordLengthTest s = true ↔ 1 ≤ (runes s).length ∧ (runes s).length ≤ 20)) := by
  refine ⟨length_iff s, ?_⟩
  intro h
  rw [length_iff, runes_ascii s (ascii_of_runes s h), List.length_map]
  rfl

/-- C4 amended, at the ASCII candidate `banana`: six bytes, six characters,
accepted. -/
theorem C4_witness :
    passwordLengthTest (lit "banana") = true ∧ (runes (lit "banana")).length = 6 :=
  ⟨((C4_length_iff_bytes (lit "banana")).2 (by decide)).2 (by decide), by decide⟩

/-- C5: `passwordDuplicateLettersTest` is true exactly when some two adjacent
characters are identical and that character is neither `e` nor `o`. -/
theorem C5_duplicate_iff (s : GoString) :
    passwordDuplicateLettersTest s = true ↔
      ∃ i c, (runes s)[i]? = some c ∧ (runes s)[i + 1]? = some c ∧
        c ≠ 'e'.toNat ∧ c ≠ 'o'.toNat :=
  duplicate_iff s

/-- C6 fails on the code: with the count argument 2 the candidate `tv` has a
run of two consonants, yet `passwordContainsConsecutiveCharacterTest` returns
false, because the patterns are fixed at three. -/
theorem C6_count_ignored :
    HasRun IsConsonant 2 (runes (lit "tv")) ∧
      passwordContainsConsecutiveCharacterTest (lit "tv") 2 = false := by
  refine ⟨⟨[], ['t'.toNat, 'v'.toNat], [], by decide, by decide, ?_⟩, by decide⟩
  intro c hc
  simp only [List.mem_cons, List.mem_singleton, List.not_mem_nil, or_false] at hc
  rcases hc with rfl | rfl <;> decide

/-- C7: with the default limit 3, `passwordContainsConsecutiveCharacterTest` is
true exactly when three consecutive characters are all vowels or three
consecutive characters are all consonants; the consonants are the 21 lowercase
letters that are not vowels, `y` among them. -/
theorem C7_consecutive_iff_three (s : GoString) :
    (passwordContainsConsecutiveCharacterTest s 3 = true ↔
      (∃ pre a b c post, runes s = pre ++ a :: b :: c :: post ∧
        IsVowel a ∧ IsVowel b ∧ IsVowel c) ∨
      (∃ pre a b c post, runes s = pre ++ a :: b :: c :: post ∧
        IsConsonant a ∧ IsConsonant b ∧ IsConsonant c)) ∧
    IsConsonant 'y'.toNat ∧
    ((List.range 128).filter (fun c => decide (IsConsonant c))).length = 21 :=
  ⟨consecutive_iff s 3, by decide, by decide⟩

/-- C8: `passwordContainsVowelTest` is true exactly when the string contains at
least one of the characters `a`, `e`, `i`, `o`, `u`, at any position. -/
theorem C8_vowel_iff (s : GoString) :
    passwordContainsVowelTest s = true ↔ ∃ c ∈ runes s, IsVowel c :=
  vowel_iff s

/-- C9: a string with at least one character (rune or byte) that is not a
lowercase letter fails `passwordApprovedCharactersTest`, and therefore
`validatePasswordBrief` rejects it. -/
theorem C9_unapproved_rejected (s : GoString)
    (h : (∃ c ∈ runes s, ¬ IsLower c) ∨ (∃ b ∈ s, ¬ IsLower b.val)) :
    passwordApprovedCharactersTest s = false ∧ validatePasswordBrief s = false := by
  have hnot : ¬ ∀ c ∈ runes s, IsLower c := by
    rcases h with ⟨c, hc, hn⟩ | ⟨b, hb, hn⟩
    · exact fun hall => hn (hall c hc)
    · exact fun hall => hn ((lower_runes_iff_bytes s).1 hall b hb)
  have ha : passwordApprovedCharactersTest s = false := by
    cases hb : passwordApprovedCharactersTest s with
    | false => rfl
    | true => exact absurd ((approved_iff s).1 hb).2 hnot
  refine ⟨ha, ?_⟩
  rw [brief_eq, ha]
  simp

/-- C9, at the candidate `pass1`: the digit makes both results false. -/
theorem C9_witness :
    passwordApprovedCharactersTest (lit "pass1") = false ∧
      validatePasswordBrief (lit "pass1") = false :=
  C9_unapproved_rejected (lit "pass1") (Or.inl ⟨'1'.toNat, by decide, by decide⟩)

/-- C10: a string of length 0 or of length greater than 20 (counted in bytes or
in characters) fails the length check and is rejected by
`validatePasswordBrief`. -/
theorem C10_bad_length_rejected (s : GoString)
    (h : len s = 0 ∨ 20 < len s ∨ (runes s).length = 0 ∨ 20 < (runes s).length) :
    passwordLengthTest s = false ∧ validatePasswordBrief s = false := by
  have hlen : ¬ (1 ≤ len s ∧ len s ≤ 20) := by
    have h1 := runes_length_le s
    have h2 : (runes s).length = 0 → len s = 0 := by
      intro h0
      have := (runes_eq_nil s).1 (List.length_eq_zero.1 h0)
      simp [this, len]
    unfold len at *
    omega
  have hl : passwordLengthTest s = false := by
    cases hb : passwordLengthTest s with
    | false => rfl
    | true => exact absurd ((length_iff s).1 hb) hlen
  refine ⟨hl, ?_⟩
  rw [brief_eq, hl]
  simp

/-- C10, at the empty string and at a candidate of 21 letters: both are
rejected. -/
theorem C10_witness :
    (passwordLengthTest (lit "") = false ∧ validatePasswordBrief (lit "") = false) ∧
    (passwordLengthTest (lit "abababababababababababa") = false ∧
      validatePasswordBrief (lit "abababababababababababa") = false) :=
  ⟨C10_bad_length_rejected (lit "") (Or.inl (by decide)),
    C10_bad_length_rejected (lit "abababababababababababa") (Or.inr (Or.inl (by decide)))⟩

/-! ## Decoding around an ASCII byte -/

theorem decodeRune_width (b : Byte) (t : GoString) :
    1 ≤ (decodeRune (b :: t)).2 ∧ (decodeRune (b :: t)).2 ≤ (b :: t).length := by
  simp only [decodeRune]
  repeat' split
  all_goals simp only [List.length_cons]
  all_goals omega

/-- An ASCII byte never continues a multi-byte sequence: the first rune of a
non-empty string is the same whether the string ends or goes on with an ASCII
byte. -/
theorem decodeRune_append_ascii (b : Byte) (t : GoString) (a : Byte) (rest : GoString)
    (ha : a.val < 128) :
    decodeRune (b :: (t ++ a :: rest)) = decodeRune (b :: t) := by
  simp only [decodeRune]
  by_cases h1 : b.val < 0x80
  · rw [if_pos h1, if_pos h1]
  rw [if_neg h1, if_neg h1]
  by_cases h2 : b.val < 0xC2
  · rw [if_pos h2, if_pos h2]
  rw [if_neg h2, if_neg h2]
  by_cases h3 : b.val < 0xE0
  · rw [if_pos h3, if_pos h3]
    rcases t with _ | ⟨b1, t1⟩
    · simp only [List.nil_append]
      split_ifs <;> first | rfl | (exfalso; omega)
    · rfl
  rw [if_neg h3, if_neg h3]
  by_cases h4 : b.val < 0xF0
  · rw [if_pos h4, if_pos h4]
    rcases t with _ | ⟨b1, _ | ⟨b2, t2⟩⟩ <;> rcases rest with _ | ⟨r1, rest1⟩ <;>
      simp only [List.cons_append, List.nil_append] <;>
      split_ifs <;> first | rfl | (exfalso; omega)
  rw [if_neg h4, if_neg h4]
  by_cases h5 : b.val < 0xF5
  · rw [if_pos h5, if_pos h5]
    rcases t with _ | ⟨b1, _ | ⟨b2, _ | ⟨b3, t3⟩⟩⟩ <;>
      rcases rest with _ | ⟨r1, _ | ⟨r2, rest2⟩⟩ <;>
      simp only [List.cons_append, List.nil_append] <;>
      split_ifs <;> first | rfl | (exfalso; omega)
  rw [if_neg h5, if_neg h5]

theorem decodeFrom_append_ascii (a : Byte) (rest : GoString) (ha : a.val < 128) :
    ∀ (x : GoString) (k : Nat), k ≤ x.length →
      decodeFrom k (x ++ a :: rest) = decodeFrom k x ++ decodeFrom 0 (a :: rest) := by
  intro x
  induction x with
  | nil =>
    intro k hk
    have hk0 : k = 0 := by simpa using hk
    subst hk0
    simp [decodeFrom]
  | cons b t ih =>
    intro k hk
    cases k with
    | zero =>
      have hw := decodeRune_width b t
      simp only [List.length_cons] at hw
      rw [List.cons_append]
      simp only [decodeFrom]
      rw [decodeRune_append_ascii b t a rest ha, ih _ (by omega)]
      simp [decodeFrom]
    | succ k =>
      simp only [List.length_cons] at hk
      rw [List.cons_append]
      simp only [decodeFrom]
      exact ih k (by omega)

/-- Decoding splits at an ASCII byte. -/
theorem runes_append_ascii (x : GoString) (a : Byte) (rest : GoString) (ha : a.val < 128) :
    runes (x ++ a :: rest) = runes x ++ a.val :: runes rest := by
  unfold runes
  rw [decodeFrom_append_ascii a rest ha x 0 (Nat.zero_le _)]
  congr 1
  exact runes_cons_ascii a rest ha

/-! ## Repeats and runs inside a larger candidate -/

theorem hasDisallowedRepeat_tail (p : Rune) (l : List Rune) (h : HasDisallowedRepeat l) :
    HasDisallowedRepeat (p :: l) := by
  obtain ⟨i, x, h1, h2, h3⟩ := h
  exact ⟨i + 1, x, by simpa using h1, by simpa using h2, h3⟩

theorem hasDisallowedRepeat_append (pre l : List Rune) (h : HasDisallowedRepeat l) :
    HasDisallowedRepeat (pre ++ l) := by
  induction pre with
  | nil => exact h
  | cons p r ih => exact hasDisallowedRepeat_tail p _ ih

/-- Doubling an exempt letter inside a rune sequence neither creates nor removes
a disallowed repeat. -/
theorem hasDisallowedRepeat_double_exempt (c : Rune) (hc : c = 'e'.toNat ∨ c = 'o'.toNat)
    (post : List Rune) :
    ∀ pre : List Rune,
      HasDisallowedRepeat (pre ++ c :: c :: post) ↔ HasDisallowedRepeat (pre ++ c :: post) := by
  have hbase : HasDisallowedRepeat (c :: c :: post) ↔ HasDisallowedRepeat (c :: post) := by
    rw [hasDisallowedRepeat_cons]
    constructor
    · rintro (⟨_, h1, h2⟩ | h)
      · rcases hc with h | h
        · exact absurd h h1
        · exact absurd h h2
      · exact h
    · intro h; exact Or.inr h
  intro pre
  induction pre with
  | nil => exact hbase
  | cons p r ih =>
    cases r with
    | nil =>
      simp only [List.cons_append, List.nil_append] at ih ⊢
      rw [hasDisallowedRepeat_cons, hasDisallowedRepeat_cons p c post, ih]
    | cons q r =>
      simp only [List.cons_append] at ih ⊢
      rw [hasDisallowedRepeat_cons, hasDisallowedRepeat_cons p q (r ++ c :: post), ih]

theorem brief_false_of_duplicate (s : GoString) (h : passwordDuplicateLettersTest s = true) :
    validatePasswordBrief s = false := by
  rw [brief_eq, h]
  simp

theorem brief_false_of_consecutive (s : GoString)
    (h : passwordContainsConsecutiveCharacterTest s ConsecutiveCharacterLimit = true) :
    validatePasswordBrief s = false := by
  rw [brief_eq, h]
  simp

/-! ## Report lines and the main loop -/

theorem printResult_true (p : GoString) :
    printResult p true = lit "<" ++ p ++ lit "> is acceptable.\r\n" := rfl

theorem printResult_false (p : GoString) :
    printResult p false = lit "<" ++ p ++ lit "> is not acceptable.\r\n" := rfl

/-- No text ending in the "acceptable" tail equals a text ending in the "not
acceptable" tail. -/
theorem tails_differ (p q : GoString) :
    p ++ lit "> is acceptable.\r\n" ≠ q ++ lit "> is not acceptable.\r\n" := by
  intro h
  rcases List.append_eq_append_iff.1 h with ⟨a, _, h2⟩ | ⟨c, _, h2⟩
  · have := congrArg List.length h2
    rw [List.length_append] at this
    have h18 : (lit "> is acceptable.\r\n").length = 18 := by decide
    have h22 : (lit "> is not acceptable.\r\n").length = 22 := by decide
    omega
  · have hlen := congrArg List.length h2
    rw [List.length_append] at hlen
    have h18 : (lit "> is acceptable.\r\n").length = 18 := by decide
    have h22 : (lit "> is not acceptable.\r\n").length = 22 := by decide
    have hc : c.length = 4 := by omega
    have hd := congrArg (List.drop 4) h2
    rw [← hc, List.drop_left] at hd
    rw [hc] at hd
    exact absurd hd (by decide)

/-- A report line determines the candidate and the verdict it reports. -/
theorem printResult_inj (p q : GoString) (b d : Bool) (h : printResult p b = printResult q d) :
    p = q ∧ b = d := by
  cases b <;> cases d
  · rw [printResult_false, printResult_false, List.append_assoc, List.append_assoc] at h
    exact ⟨List.append_cancel_right (List.append_cancel_left h), rfl⟩
  · rw [printResult_false, printResult_true, List.append_assoc, List.append_assoc] at h
    exact absurd (List.append_cancel_left h).symm (tails_differ q p)
  · rw [printResult_true, printResult_false, List.append_assoc, List.append_assoc] at h
    exact absurd (List.append_cancel_left h) (tails_differ p q)
  · rw [printResult_true, printResult_true, List.append_assoc, List.append_assoc] at h
    exact ⟨List.append_cancel_right (List.append_cancel_left h), rfl⟩

/-! ## The claims on the test table, on doubled letters and runs -/

set_option maxRecDepth 100000 in
/-- C11: for each of the 43 entries `(password, expected)` of `passwordTestSet`
the nested five-check verdict `validatePasswordBrief password` equals
`expected`. -/
theorem C11_test_table :
    passwordTestSet.length = 43 ∧
      ∀ e ∈ passwordTestSet, validatePasswordBrief e.1 = e.2 := by
  decide

/-- C12: a doubled lowercase letter other than `e` and `o` is flagged by the
duplicate-letter check and rejected by `validatePasswordBrief`, whatever
strings precede and follow it. -/
theorem C12_doubled_letter_rejected (x y : GoString) (c : Byte) (hc : IsLower c.val)
    (hne : c.val ≠ 'e'.toNat ∧ c.val ≠ 'o'.toNat) :
    passwordDuplicateLettersTest (x ++ [c] ++ [c] ++ y) = true ∧
      validatePasswordBrief (x ++ [c] ++ [c] ++ y) = false := by
  have hlt : c.val < 128 := lower_lt _ hc
  have hd : passwordDuplicateLettersTest (x ++ [c] ++ [c] ++ y) = true := by
    rw [duplicate_iff]
    simp only [List.append_assoc, List.singleton_append, List.cons_append, List.nil_append]
    rw [runes_append_ascii x c (c :: y) hlt, runes_cons_ascii c y hlt]
    apply hasDisallowedRepeat_append
    exact ⟨0, c.val, by simp, by simp, hne⟩
  exact ⟨hd, brief_false_of_duplicate _ hd⟩

/-- C12, at `su` ++ `p` ++ `p` ++ `er`: the candidate `supper` is flagged and
rejected. -/
theorem C12_witness :
    passwordDuplicateLettersTest (lit "su" ++ [112] ++ [112] ++ lit "er") = true ∧
      validatePasswordBrief (lit "su" ++ [112] ++ [112] ++ lit "er") = false :=
  C12_doubled_letter_rejected (lit "su") (lit "er") 112 (by decide) (by decide)

/-- C13: doubling an exempt letter (`e` or `o`) anywhere in a candidate leaves
the outcome of the duplicate-letter check unchanged. -/
theorem C13_exempt_double_neutral (x y : GoString) (c : Byte)
    (hc : c.val = 'e'.toNat ∨ c.val = 'o'.toNat) :
    passwordDuplicateLettersTest (x ++ [c] ++ [c] ++ y) =
      passwordDuplicateLettersTest (x ++ [c] ++ y) := by
  have hlt : c.val < 128 := by
    simp only [Char.reduceToNat] at hc
    omega
  have hiff : passwordDuplicateLettersTest (x ++ [c] ++ [c] ++ y) = true ↔
      passwordDuplicateLettersTest (x ++ [c] ++ y) = true := by
    rw [duplicate_iff, duplicate_iff]
    simp only [List.append_assoc, List.singleton_append, List.cons_append, List.nil_append]
    rw [runes_append_ascii x c (c :: y) hlt, runes_append_ascii x c y hlt,
      runes_cons_ascii c y hlt]
    exact hasDisallowedRepeat_double_exempt c.val hc (runes y) (runes x)
  cases h1 : passwordDuplicateLettersTest (x ++ [c] ++ [c] ++ y) <;>
    cases h2 : passwordDuplicateLettersTest (x ++ [c] ++ y) <;> simp_all

/-- C13, at `p` ++ `e` ++ `e` ++ `rop` against `p` ++ `e` ++ `rop`: `peerop`
and `perop` get the same outcome, which is false. -/
theorem C13_witness :
    passwordDuplicateLettersTest (lit "p" ++ [101] ++ [101] ++ lit "rop") =
        passwordDuplicateLettersTest (lit "p" ++ [101] ++ lit "rop") ∧
      passwordDuplicateLettersTest (lit "p" ++ [101] ++ lit "rop") = false :=
  ⟨C13_exempt_double_neutral (lit "p") (lit "rop") 101 (Or.inl (by decide)), by decide⟩

/-- C14: for an exempt letter `c` the triple `ccc` passes the duplicate-letter
check, yet any candidate containing `ccc` triggers the consecutive-character
check and is rejected by `validatePasswordBrief`. -/
theorem C14_exempt_triple_rejected (c : Byte) (hc : c.val = 'e'.toNat ∨ c.val = 'o'.toNat) :
    passwordDuplicateLettersTest [c, c, c] = false ∧
      ∀ x y : GoString,
        passwordContainsConsecutiveCharacterTest (x ++ [c, c, c] ++ y) 3 = true ∧
          validatePasswordBrief (x ++ [c, c, c] ++ y) = false := by
  have hlt : c.val < 128 := by
    simp only [Char.reduceToNat] at hc
    omega
  have hv : IsVowel c.val := by
    unfold IsVowel
    rcases hc with h | h
    · exact Or.inr (Or.inl h)
    · exact Or.inr (Or.inr (Or.inr (Or.inl h)))
  refine ⟨?_, ?_⟩
  · have hcc : c = 101 ∨ c = 111 := by
      rcases hc with h | h
      · exact Or.inl (Fin.ext h)
      · exact Or.inr (Fin.ext h)
    rcases hcc with rfl | rfl <;> decide
  · intro x y
    have hrun : passwordContainsConsecutiveCharacterTest (x ++ [c, c, c] ++ y) 3 = true := by
      rw [consecutive_iff]
      left
      refine ⟨runes x, c.val, c.val, c.val, runes y, ?_, hv, hv, hv⟩
      simp only [List.append_assoc, List.cons_append, List.nil_append]
      rw [runes_append_ascii x c _ hlt, runes_cons_ascii c _ hlt, runes_cons_ascii c y hlt]
    exact ⟨hrun, brief_false_of_consecutive _ hrun⟩

/-- C14, at the letter `e`: `eee` passes the duplicate-letter check while
`b` ++ `eee` ++ `p` is rejected. -/
theorem C14_witness :
    passwordDuplicateLettersTest [101, 101, 101] = false ∧
      validatePasswordBrief (lit "b" ++ [101, 101, 101] ++ lit "p") = false :=
  ⟨(C14_exempt_triple_rejected 101 (Or.inl (by decide))).1,
    ((C14_exempt_triple_rejected 101 (Or.inl (by decide))).2 (lit "b") (lit "p")).2⟩

/-! ## The claims on the report line and the length check -/

/-- C16: the report line of `printResult` for candidate `p` is `<p> is
acceptable.` when the verdict is true and `<p> is not acceptable.` when it is
false, ended by carriage return and line feed; it is the "acceptable" line
exactly when the verdict is true. -/
theorem C16_report_line (p : GoString) (b : Bool) :
    printResult p b =
        (if b then lit "<" ++ p ++ lit "> is acceptable." ++ [13, 10]
          else lit "<" ++ p ++ lit "> is not acceptable." ++ [13, 10]) ∧
      (printResult p b = lit "<" ++ p ++ lit "> is acceptable.\r\n" ↔ b = true) := by
  constructor
  · cases b
    · simp only [Bool.false_eq_true, if_false]
      rw [printResult_false, List.append_assoc (lit "<" ++ p)]
      rfl
    · simp only [if_true]
      rw [printResult_true, List.append_assoc (lit "<" ++ p)]
      rfl
  · constructor
    · intro h
      rw [← printResult_true] at h
      exact (printResult_inj p p b true h).2
    · intro h
      rw [h, printResult_true]

/-- C17: the count argument of `passwordContainsConsecutiveCharacterTest` has
no effect: any two counts give the same result, the one decided by the
patterns fixed at three consecutive vowels or three consecutive consonants. -/
theorem C17_count_irrelevant (s : GoString) (c1 c2 : Nat) :
    passwordContainsConsecutiveCharacterTest s c1 =
        passwordContainsConsecutiveCharacterTest s c2 ∧
      (passwordContainsConsecutiveCharacterTest s c1 = true ↔
        (∃ pre a b c post, runes s = pre ++ a :: b :: c :: post ∧
          IsVowel a ∧ IsVowel b ∧ IsVowel c) ∨
        (∃ pre a b c post, runes s = pre ++ a :: b :: c :: post ∧
          IsConsonant a ∧ IsConsonant b ∧ IsConsonant c)) :=
  ⟨rfl, consecutive_iff s c1⟩

theorem approved_length (s : GoString) (h : passwordApprovedCharactersTest s = true) :
    (runes s).length = len s := by
  have hl := ((approved_iff s).1 h).2
  rw [runes_ascii s (ascii_of_runes s (fun c hc => lower_lt c (hl c hc))), List.length_map]
  rfl

theorem briefChars_eq (s : GoString) :
    validatePasswordBriefChars s =
      (passwordLengthTestChars s && passwordApprovedCharactersTest s
        && passwordContainsVowelTest s && !passwordDuplicateLettersTest s
        && !passwordContainsConsecutiveCharacterTest s ConsecutiveCharacterLimit) := by
  unfold validatePasswordBriefChars
  cases passwordLengthTestChars s <;> cases passwordApprovedCharactersTest s <;>
    cases passwordContainsVowelTest s <;> cases passwordDuplicateLettersTest s <;>
    cases passwordContainsConsecutiveCharacterTest s ConsecutiveCharacterLimit <;> rfl

/-- C18: on a string that passes `passwordApprovedCharactersTest` the byte
length used by `passwordLengthTest` is the number of characters; hence for
every string `validatePasswordBrief` gives the same verdict as the policy
whose length check counts characters. -/
theorem C18_bytes_or_characters (s : GoString) :
    (passwordApprovedCharactersTest s = true → len s = (runes s).length) ∧
      validatePasswordBrief s = validatePasswordBriefChars s := by
  refine ⟨fun h => (approved_length s h).symm, ?_⟩
  rw [brief_eq, briefChars_eq]
  cases ha : passwordApprovedCharactersTest s with
  | false => simp
  | true =>
    have hlen : passwordLengthTestChars s = passwordLengthTest s := by
      unfold passwordLengthTestChars passwordLengthTest
      rw [approved_length s ha]
    rw [hlen]

/-- C18, at the candidate `banana`: six bytes and six characters. -/
theorem C18_witness : len (lit "banana") = (runes (lit "banana")).length :=
  (C18_bytes_or_characters (lit "banana")).1 (by decide)

theorem lower_vowel_or_consonant (c : Rune) (h : IsLower c) : IsVowel c ∨ IsConsonant c := by
  by_cases hv : IsVowel c
  · exact Or.inl hv
  · exact Or.inr ⟨h, hv⟩

/-- A candidate of lowercase letters, three or more, without a run of three
vowels or three consonants holds both a vowel and a consonant. -/
theorem vowel_and_consonant_of_no_run (s : GoString) (h3 : 3 ≤ len s)
    (ha : passwordApprovedCharactersTest s = true)
    (hc : passwordContainsConsecutiveCharacterTest s 3 = false) :
    (∃ c ∈ runes s, IsVowel c) ∧ ∃ c ∈ runes s, IsConsonant c := by
  have hlow := ((approved_iff s).1 ha).2
  have hlen : 3 ≤ (runes s).length := by rw [approved_length s ha]; exact h3
  have hno : ¬ passwordContainsConsecutiveCharacterTest s 3 = true := by simp [hc]
  rw [consecutive_iff] at hno
  match hr : runes s, hlen with
  | a :: b :: c :: post, _ =>
    rw [hr] at hlow hno
    have hla := hlow a (by simp)
    have hlb := hlow b (by simp)
    have hlc := hlow c (by simp)
    constructor
    · by_contra hnv
      have hca : IsConsonant a := ⟨hla, fun h => hnv ⟨a, by simp, h⟩⟩
      have hcb : IsConsonant b := ⟨hlb, fun h => hnv ⟨b, by simp, h⟩⟩
      have hcc : IsConsonant c := ⟨hlc, fun h => hnv ⟨c, by simp, h⟩⟩
      exact hno (Or.inr ⟨[], a, b, c, post, rfl, hca, hcb, hcc⟩)
    · by_contra hnc
      have hva : IsVowel a := (lower_vowel_or_consonant a hla).resolve_right
        (fun h => hnc ⟨a, by simp, h⟩)
      have hvb : IsVowel b := (lower_vowel_or_consonant b hlb).resolve_right
        (fun h => hnc ⟨b, by simp, h⟩)
      have hvc : IsVowel c := (lower_vowel_or_consonant c hlc).resolve_right
        (fun h => hnc ⟨c, by simp, h⟩)
      exact hno (Or.inl ⟨[], a, b, c, post, rfl, hva, hvb, hvc⟩)

/-- C19: for a candidate of three or more characters (or bytes) that passes the
approved-characters check and has no forbidden run, the vowel check is true and
a consonant is present too; so for such lengths `validatePasswordBrief` equals
the four remaining checks and the vowel check never changes the verdict. -/
theorem C19_vowel_check_redundant (s : GoString)
    (hlen : 3 ≤ len s ∨ 3 ≤ (runes s).length) :
    (passwordApprovedCharactersTest s = true →
      passwordContainsConsecutiveCharacterTest s 3 = false →
        passwordContainsVowelTest s = true ∧ ∃ c ∈ runes s, IsConsonant c) ∧
      validatePasswordBrief s =
        (passwordLengthTest s && passwordApprovedCharactersTest s
          && !passwordDuplicateLettersTest s
          && !passwordContainsConsecutiveCharacterTest s 3) := by
  have h3 : 3 ≤ len s := by
    rcases hlen with h | h
    · exact h
    · exact Nat.le_trans h (runes_length_le s)
  have key : passwordApprovedCharactersTest s = true →
      passwordContainsConsecutiveCharacterTest s 3 = false →
        passwordContainsVowelTest s = true ∧ ∃ c ∈ runes s, IsConsonant c := by
    intro ha hc
    have h := vowel_and_consonant_of_no_run s h3 ha hc
    exact ⟨(vowel_iff s).2 h.1, h.2⟩
  refine ⟨key, ?_⟩
  rw [brief_eq]
  show (_ && _ && _ && !_ && !passwordContainsConsecutiveCharacterTest s 3) = _
  cases ha : passwordApprovedCharactersTest s with
  | false => simp
  | true =>
    cases hc : passwordContainsConsecutiveCharacterTest s 3 with
    | true => simp
    | false =>
      rw [(key ha hc).1]
      simp

/-- C19, at the candidate `ask`: the vowel check is true and a consonant is
present. -/
theorem C19_witness :
    passwordContainsVowelTest (lit "ask") = true ∧
      ∃ c ∈ runes (lit "ask"), IsConsonant c :=
  (C19_vowel_check_redundant (lit "ask") (Or.inl (by decide))).1 (by decide) (by decide)

/-! ## The scanner and the main loop -/

/-- A successful `Scan` consumes at least one byte of the file. -/
theorem scan_length (unread passwd rest : GoString) (h : scan unread = some (passwd, rest)) :
    rest.length < unread.length := by
  unfold scan at h
  split_ifs at h with h1 h2
  simp only [Option.some.injEq, Prod.mk.injEq] at h
  rw [← h.2]
  have hpos : 0 < unread.length := by
    cases unread with
    | nil => simp at h1
    | cons b t => simp
  have hle : (unread.dropWhile (fun b => b != 10)).length ≤ unread.length :=
    (List.dropWhile_sublist _).length_le
  simp only [cutLine]
  cases hd : unread.dropWhile (fun b => b != 10) with
  | nil => simpa using hpos
  | cons x t =>
    rw [hd] at hle
    simp only [List.length_cons] at hle
    simp only [List.tail?_cons, Option.getD_some]
    omega

theorem mainLoop_succ (fuel : Nat) (unread : GoString) :
    mainLoop (fuel + 1) unread =
      match scan unread with
      | none => ([], false)
      | some (passwd, rest) =>
        if passwd == EndOfInputDelimiter then ([], true)
        else
          ((printResult passwd (validatePasswordBrief passwd)) :: (mainLoop fuel rest).1,
            (mainLoop fuel rest).2) := rfl

/-- Two amounts of fuel above the number of unread bytes give the same run. -/
theorem mainLoop_fuel_eq :
    ∀ (n : Nat) (unread : GoString) (f1 f2 : Nat), unread.length ≤ n →
      unread.length < f1 → unread.length < f2 → mainLoop f1 unread = mainLoop f2 unread := by
  intro n
  induction n with
  | zero =>
    intro unread f1 f2 hn h1 h2
    have hnil : unread = [] := List.length_eq_zero.1 (Nat.le_zero.1 hn)
    subst hnil
    obtain ⟨g1, rfl⟩ : ∃ g, f1 = g + 1 := ⟨f1 - 1, by omega⟩
    obtain ⟨g2, rfl⟩ : ∃ g, f2 = g + 1 := ⟨f2 - 1, by omega⟩
    rfl
  | succ n ih =>
    intro unread f1 f2 hn h1 h2
    obtain ⟨g1, rfl⟩ : ∃ g, f1 = g + 1 := ⟨f1 - 1, by omega⟩
    obtain ⟨g2, rfl⟩ : ∃ g, f2 = g + 1 := ⟨f2 - 1, by omega⟩
    rw [mainLoop_succ, mainLoop_succ]
    cases hs : scan unread with
    | none => rfl
    | some pr =>
      obtain ⟨passwd, rest⟩ := pr
      have hlt := scan_length unread passwd rest hs
      have hrec := ih rest g1 g2 (by omega) (by omega) (by omega)
      simp only [hrec]

/-- The fuel `main` starts with is enough: more fuel gives the same run. -/
theorem mainLoop_fuel (unread : GoString) (fuel : Nat) (h : len unread < fuel) :
    mainLoop fuel unread = main unread :=
  mainLoop_fuel_eq unread.length unread fuel (len unread + 1) (le_refl _) h
    (Nat.lt_succ_self _)

/-- Every text the loop writes is the report line of a line other than the
sentinel. -/
theorem mainLoop_reports :
    ∀ (fuel : Nat) (unread : GoString), ∀ x ∈ (mainLoop fuel unread).1,
      ∃ p, p ≠ EndOfInputDelimiter ∧ x = printResult p (validatePasswordBrief p) := by
  intro fuel
  induction fuel with
  | zero => intro unread x hx; simp [mainLoop] at hx
  | succ fuel ih =>
    intro unread x hx
    rw [mainLoop_succ] at hx
    cases hs : scan unread with
    | none => rw [hs] at hx; simp at hx
    | some pr =>
      obtain ⟨passwd, rest⟩ := pr
      rw [hs] at hx
      by_cases hp : passwd = EndOfInputDelimiter
      · simp [hp] at hx
      · have hb : (passwd == EndOfInputDelimiter) = false := by simpa using hp
        simp only [hb, Bool.false_eq_true, if_false, List.mem_cons] at hx
        rcases hx with rfl | hx
        · exact ⟨passwd, hp, rfl⟩
        · exact ih rest x hx

/-- A line of `MaxScanTokenSize` bytes or more makes `Scan` return false. -/
theorem scan_long_line (line rest : GoString) (hline : ∀ b ∈ line, b ≠ 10)
    (hlong : MaxScanTokenSize ≤ line.length) : scan (line ++ 10 :: rest) = none := by
  have hcut : (cutLine (line ++ 10 :: rest)).1 = line := by
    simp only [cutLine]
    rw [List.takeWhile_append_of_pos (fun b hb => by simpa using hline b hb)]
    simp
  unfold scan
  rw [hcut]
  have hne : (line ++ 10 :: rest).isEmpty = false := by
    cases line <;> rfl
  simp only [hne, Bool.false_eq_true, if_false]
  rw [if_neg (by omega)]

/-- The loop stops for good at a line of `MaxScanTokenSize` bytes or more:
nothing is written for it or for any later line, the sentinel is not found. -/
theorem main_long_first_line (line rest : GoString) (hline : ∀ b ∈ line, b ≠ 10)
    (hlong : MaxScanTokenSize ≤ line.length) : main (line ++ 10 :: rest) = ([], false) := by
  unfold main
  rw [mainLoop_succ, scan_long_line line rest hline hlong]

/-! ## The claims on the main loop and its sentinel -/

/-- C15 fails on the code: on the input file made of a line of 70000 letters
`a`, then the lines `banana` and `end`, the claim asks for two report lines, yet
the loop writes nothing and ends without finding the sentinel, because `Scan`
returns false at a line that does not fit its buffer and `main` never reads the
scanner's error. With the first line `aaa` instead, the loop writes both report
lines and finds the sentinel. -/
theorem C15_long_line_stops_loop :
    main (List.replicate 70000 97 ++ lit "\nbanana\nend\n") = ([], false) ∧
      main (lit "aaa\nbanana\nend\n") =
        ([lit "<aaa> is not acceptable.\r\n", lit "<banana> is acceptable.\r\n"], true) := by
  constructor
  · show main (List.replicate 70000 97 ++ 10 :: lit "banana\nend\n") = ([], false)
    apply main_long_first_line
    · intro b hb
      rw [(List.mem_replicate.1 hb).2]
      decide
    · rw [List.length_replicate]
      decide
  · decide

/-- C20: the sentinel word `end` is itself acceptable under the policy, yet the
main loop never writes a report line for it, whatever the input file (and
whatever the state of the scanner and the number of iterations): it stops at the
sentinel instead of evaluating it. -/
theorem C20_sentinel_acceptable_unreported :
    validatePasswordBrief (lit "end") = true ∧
      main (lit "end\n") = ([], true) ∧
      (∀ (inFile : GoString) (b : Bool), printResult (lit "end") b ∉ (main inFile).1) ∧
      ∀ (fuel : Nat) (unread : GoString) (b : Bool),
        printResult (lit "end") b ∉ (mainLoop fuel unread).1 := by
  have key : ∀ (fuel : Nat) (unread : GoString) (b : Bool),
      printResult (lit "end") b ∉ (mainLoop fuel unread).1 := by
    intro fuel unread b hmem
    obtain ⟨p, hne, heq⟩ := mainLoop_reports fuel unread _ hmem
    exact hne (printResult_inj _ _ _ _ heq).1.symm
  exact ⟨by decide, by decide, fun inFile b => key _ inFile b, key⟩

end PasswordTest
